import Mathlib

/-!
Verification development for the port-scanner module of the repository
(src/src/modules/scanners/port_scanner.rs), a concurrent TCP/UDP port
scanner.  Strings are modelled as lists of characters, bytes as natural
numbers below 256, and the network as an explicit environment: each probe
worker receives the outcome of its socket operations as data.  The
orchestrator (run_with_settings) is modelled as a small-step transition
system whose nondeterminism ranges over task interleavings, exactly the
freedom the tokio scheduler has.
-/

namespace PortScanner

/-- Unicode White_Space test, the predicate used by Rust's str::trim. -/
def isRustWhitespace (c : Char) : Bool :=
  let n := c.toNat
  (9 ≤ n && n ≤ 13) || n = 32 || n = 0x85 || n = 0xA0 || n = 0x1680 ||
  (0x2000 ≤ n && n ≤ 0x200A) || n = 0x2028 || n = 0x2029 || n = 0x202F ||
  n = 0x205F || n = 0x3000

/-- Remove every leading occurrence of the character c, as str::trim_start_matches does. -/
def dropLeading (c : Char) : List Char → List Char
  | [] => []
  | x :: xs => if x = c then dropLeading c xs else x :: xs

/-- Remove leading whitespace, as str::trim_start does. -/
def dropWs : List Char → List Char
  | [] => []
  | x :: xs => if isRustWhitespace x then dropWs xs else x :: xs

/-- Remove every trailing occurrence of the character c, as str::trim_end_matches does. -/
def dropTrailing (c : Char) (l : List Char) : List Char :=
  (dropLeading c l.reverse).reverse

/-- Remove trailing whitespace, as str::trim_end does. -/
def trimEndWs (l : List Char) : List Char :=
  (dropWs l.reverse).reverse

/-- Whitespace trim on both ends, as str::trim does. -/
def trim (l : List Char) : List Char :=
  trimEndWs (dropWs l)

/-- Test whether the character c occurs in the list, as str::contains with a char argument. -/
def containsChar (c : Char) (l : List Char) : Bool :=
  l.contains c

/-- The stripping pipeline of normalize_target, line 177 of the source:
    input.trim().trim_start_matches(char1).trim_end_matches(char2).trim()
    with char1 an opening and char2 a closing square bracket. -/
def stripCore (l : List Char) : List Char :=
  trim (dropTrailing ']' (dropLeading '[' (trim l)))

/-- Pure value computed by normalize_target (source lines 176-184): after the
    stripping pipeline the result is wrapped in one bracket pair when it
    contains a colon and no dot, and returned unchanged otherwise. -/
def normalizeTarget (l : List Char) : List Char :=
  let input := stripCore l
  if containsChar ':' input && !containsChar '.' input then
    '[' :: (input ++ [']'])
  else
    input

/-- normalize_target itself: the Rust function has type Result of String and
    returns Ok in both of its branches, so it is the pure computation above
    wrapped in a success constructor. -/
def normalize_target (l : List Char) : Except String (List Char) :=
  Except.ok (normalizeTarget l)

/-- Drop matching trailing characters, written with the library dropWhile;
    used only by the specification-side normalizer below. -/
def stripEndWhile (p : Char → Bool) (l : List Char) : List Char :=
  (l.reverse.dropWhile p).reverse

/-- Modelled from the spec's words for the amended claim C3: trim whitespace,
    strip all leading opening brackets and all trailing closing brackets,
    trim again, and wrap in exactly one bracket pair when the stripped string
    contains a colon and no dot.  Written with the library dropWhile so that
    agreement with normalizeTarget is a proved refinement, not a restatement. -/
def amendedSpecNormalize (l : List Char) : List Char :=
  let t1 := stripEndWhile isRustWhitespace (l.dropWhile isRustWhitespace)
  let t2 := stripEndWhile (fun c => c == ']') (t1.dropWhile (fun c => c == '['))
  let t3 := stripEndWhile isRustWhitespace (t2.dropWhile isRustWhitespace)
  if t3.contains ':' && !(t3.contains '.') then '[' :: (t3 ++ [']']) else t3

/-- Bracket characters of either kind, for the claim-side normalizer below. -/
def bracketChar (c : Char) : Bool :=
  c == '[' || c == ']'

/-- Modelled from claim C3's own words, to be compared with the source
    function: strip all leading and trailing bracket characters of any kind,
    then wrap whenever the stripped string contains a colon. -/
def claimedNormalize (l : List Char) : List Char :=
  let s := stripEndWhile bracketChar (l.dropWhile bracketChar)
  if s.contains ':' then '[' :: (s ++ [']']) else s

/-- Decimal digit character. -/
def digitChar (d : Nat) : Char :=
  Char.ofNat (48 + d)

/-- Accumulator loop producing the decimal digits of a number, most
    significant first; the fuel argument only bounds the recursion and always
    suffices because it starts above the digit count. -/
def natDigitsGo : Nat → Nat → List Char → List Char
  | 0, _, acc => acc
  | fuel + 1, n, acc =>
    if n < 10 then digitChar n :: acc
    else natDigitsGo fuel (n / 10) (digitChar (n % 10) :: acc)

/-- Decimal rendering of a natural number, as Rust's Display for integers
    (used by the format macro for the port number). -/
def natDigits (n : Nat) : List Char :=
  natDigitsGo (n + 1) n []

/-- The replacement character emitted for invalid UTF-8. -/
def replacementChar : Char :=
  Char.ofNat 0xFFFD

/-- UTF-8 continuation byte test. -/
def isContByte (b : Nat) : Bool :=
  0x80 ≤ b && b ≤ 0xBF

/-- Valid first continuation byte after a three-byte leading byte. -/
def cont1Ok3 (b c1 : Nat) : Bool :=
  (b = 0xE0 && 0xA0 ≤ c1 && c1 ≤ 0xBF) ||
  (b = 0xED && 0x80 ≤ c1 && c1 ≤ 0x9F) ||
  (b ≠ 0xE0 && b ≠ 0xED && isContByte c1)

/-- Valid first continuation byte after a four-byte leading byte. -/
def cont1Ok4 (b c1 : Nat) : Bool :=
  (b = 0xF0 && 0x90 ≤ c1 && c1 ≤ 0xBF) ||
  (b = 0xF4 && 0x80 ≤ c1 && c1 ≤ 0x8F) ||
  ((b = 0xF1 || b = 0xF2 || b = 0xF3) && isContByte c1)

/-- Lossy UTF-8 decoding loop following the maximal-subpart substitution
    policy of String::from_utf8_lossy: an invalid or truncated sequence
    yields one replacement character and decoding resumes at the offending
    byte.  Each step consumes at least one byte, so the fuel argument, which
    starts at the byte count, never runs out. -/
def utf8LossyGo : Nat → List Nat → List Char
  | 0, _ => []
  | _, [] => []
  | fuel + 1, b :: rest =>
    if b < 0x80 then Char.ofNat b :: utf8LossyGo fuel rest
    else if b < 0xC2 then replacementChar :: utf8LossyGo fuel rest
    else if b ≤ 0xDF then
      match rest with
      | [] => [replacementChar]
      | c1 :: r2 =>
        if isContByte c1 then
          Char.ofNat ((b - 0xC0) * 0x40 + (c1 - 0x80)) :: utf8LossyGo fuel r2
        else replacementChar :: utf8LossyGo fuel (c1 :: r2)
    else if b ≤ 0xEF then
      match rest with
      | [] => [replacementChar]
      | c1 :: r2 =>
        if cont1Ok3 b c1 then
          match r2 with
          | [] => [replacementChar]
          | c2 :: r3 =>
            if isContByte c2 then
              Char.ofNat (((b - 0xE0) * 0x40 + (c1 - 0x80)) * 0x40 + (c2 - 0x80)) ::
                utf8LossyGo fuel r3
            else replacementChar :: utf8LossyGo fuel (c2 :: r3)
        else replacementChar :: utf8LossyGo fuel (c1 :: r2)
    else if b ≤ 0xF4 then
      match rest with
      | [] => [replacementChar]
      | c1 :: r2 =>
        if cont1Ok4 b c1 then
          match r2 with
          | [] => [replacementChar]
          | c2 :: r3 =>
            if isContByte c2 then
              match r3 with
              | [] => [replacementChar]
              | c3 :: r4 =>
                if isContByte c3 then
                  Char.ofNat ((((b - 0xF0) * 0x40 + (c1 - 0x80)) * 0x40 +
                    (c2 - 0x80)) * 0x40 + (c3 - 0x80)) :: utf8LossyGo fuel r4
                else replacementChar :: utf8LossyGo fuel (c3 :: r4)
            else replacementChar :: utf8LossyGo fuel (c2 :: r3)
        else replacementChar :: utf8LossyGo fuel (c1 :: r2)
    else replacementChar :: utf8LossyGo fuel rest

/-- Lossy UTF-8 decoding, String::from_utf8_lossy applied to the bytes read
    into the banner buffer. -/
def utf8Lossy (l : List Nat) : List Char :=
  utf8LossyGo l.length l

/-- Outcome of the banner read phase inside scan_tcp: the readable wait can
    time out or error, or the socket becomes readable and try_read returns
    either an error (none) or the bytes placed in the buffer. -/
inductive ReadableOutcome
  | timedOut
  | errored
  | ready (readRes : Option (List Nat))
  deriving DecidableEq

/-- Outcome of the connect attempt inside scan_tcp: the timeout wrapper can
    expire, the connect future can fail, or a stream is obtained. -/
inductive ConnectOutcome
  | timedOut
  | failed
  | connected (readable : ReadableOutcome)
  deriving DecidableEq

/-- Network environment seen by one TCP probe. -/
structure TcpEnv where
  connect : ConnectOutcome
  deriving DecidableEq

/-- Well-formedness of a TCP environment: try_read fills a buffer of 1024
    bytes, so it can report at most 1024 bytes, each below 256. -/
def tcpEnvWF (env : TcpEnv) : Bool :=
  match env.connect with
  | ConnectOutcome.connected (ReadableOutcome.ready (some bs)) =>
    decide (bs.length ≤ 1024) && bs.all (fun b => decide (b < 256))
  | _ => true

/-- scan_tcp (source lines 135-154): classify the connect outcome and grab a
    best-effort banner.  A timeout of the connect maps to TIMEOUT, a failed
    connect to CLOSED, a successful connect to OPEN; after a successful
    connect, a readable wait that times out or errors, or a read error, or a
    zero-byte read, leaves the banner empty, and a positive read decodes the
    bytes lossily.  The function returns a value in every case. -/
def scan_tcp (env : TcpEnv) : Option (String × List Char) :=
  match env.connect with
  | ConnectOutcome.connected r =>
    match r with
    | ReadableOutcome.ready (some bs) =>
      if bs.length > 0 then some ("OPEN", utf8Lossy bs) else some ("OPEN", [])
    | _ => some ("OPEN", [])
  | ConnectOutcome.failed => some ("CLOSED", [])
  | ConnectOutcome.timedOut => some ("TIMEOUT", [])

/-- Abstract resolved socket address (the value produced by to_socket_addrs). -/
structure SockAddr where
  addr : Nat
  deriving DecidableEq

/-- normalize_addr (source lines 187-199): strip brackets from the trimmed
    input, re-wrap when the cleaned string has a colon and no dot, then hand
    the formatted string to the resolver.  to_socket_addrs is an external
    call, modelled by the resolve oracle; an error from it and an empty
    address list both surface as the error case. -/
def normalize_addr (resolve : List Char → Option SockAddr) (input : List Char) :
    Except String SockAddr :=
  let cleaned := dropTrailing ']' (dropLeading '[' (trim input))
  let formatted :=
    if containsChar ':' cleaned && !containsChar '.' cleaned then
      '[' :: (cleaned ++ [']'])
    else cleaned
  match resolve formatted with
  | some a => Except.ok a
  | none => Except.error ("Invalid address")

/-- Outcome of the receive wait inside scan_udp. -/
inductive RecvOutcome
  | timedOut
  | errored
  | received (n : Nat)
  deriving DecidableEq

/-- Network environment seen by one UDP probe.  The sendOk field records
    whether send_to succeeded; the source ignores that result (let underscore
    binding on line 166), which is why scan_udp below never reads it. -/
structure UdpEnv where
  resolve : List Char → Option SockAddr
  bindOk : Bool
  sendOk : Bool
  recv : RecvOutcome

/-- scan_udp (source lines 157-173): resolve the remote address (returning no
    result on failure), bind a local socket (returning no result on failure),
    send one null byte with the result ignored, then wait for any inbound
    datagram; an arrival yields OPEN and a timeout or receive error yields no
    result. -/
def scan_udp (env : UdpEnv) (ip : List Char) (port : Nat) : Option String :=
  let remote := ip ++ ':' :: natDigits port
  match normalize_addr env.resolve remote with
  | Except.error _ => none
  | Except.ok _ =>
    if env.bindOk then
      match env.recv with
      | RecvOutcome.received _ => some ("OPEN")
      | _ => none
    else none

/-- The result line built on source line 84 for a TCP result. -/
def tcpLine (host : List Char) (port : Nat) (status : String) : List Char :=
  "[TCP] ".toList ++ host ++ ':' :: natDigits port ++ " => ".toList ++ status.toList

/-- The full record appended to the output file for one TCP result: the line,
    a banner suffix when the banner is non-empty, and the newline added by
    writeln (source lines 84-96). -/
def tcpRecord (host : List Char) (port : Nat) (status : String) (banner : List Char) :
    List Char :=
  (if banner.isEmpty then tcpLine host port status
   else tcpLine host port status ++ " | Banner: ".toList ++ banner) ++ ['\n']

/-- The full record appended to the output file for one UDP result
    (source lines 113-115); UDP results carry no banner. -/
def udpRecord (host : List Char) (port : Nat) (status : String) : List Char :=
  "[UDP] ".toList ++ host ++ ':' :: natDigits port ++ " => ".toList ++
    status.toList ++ ['\n']

/-- The scan configuration fields of run_with_settings. -/
structure Config where
  concurrency : Nat
  timeout_secs : Nat
  show_only_open : Bool
  verbose : Bool
  scan_udp_enabled : Bool

/-- Probe protocol. -/
inductive Proto
  | tcp
  | udp
  deriving DecidableEq

/-- Observable events of a scan run: a task being spawned for a port, a
    result record being written to the output file, and a task finishing
    (its permit returning to the semaphore). -/
inductive Event
  | dispatch (p : Proto) (port : Nat)
  | write (p : Proto) (port : Nat) (status : String) (banner : List Char)
  | complete (p : Proto) (port : Nat)
  deriving DecidableEq

/-- State of the orchestrator of run_with_settings: the next port each
    dispatch loop will take, the free permits of the semaphore, the tasks in
    flight, and the event history. -/
structure OrchState where
  tcpNext : Nat
  udpNext : Nat
  permits : Nat
  running : List (Proto × Nat)
  trace : List Event
  deriving DecidableEq

/-- Initial orchestrator state: both loops at port 1, the semaphore holding
    the configured number of permits, nothing running. -/
def initState (cfg : Config) : OrchState :=
  { tcpNext := 1, udpNext := 1, permits := cfg.concurrency, running := [], trace := [] }

/-- The fallible setup of run_with_settings before any task is spawned
    (source lines 69-73): normalize the target, then create the output file
    and write the header; the latter two are file-system operations modelled
    by the ioOk flag.  No name resolution happens here. -/
def setup (ioOk : Bool) (target : List Char) : Except String (List Char) :=
  match normalize_target target with
  | Except.error e => Except.error e
  | Except.ok host => if ioOk then Except.ok host else Except.error ("output error")

/-- Events produced by one spawned TCP task (source lines 81-99): the probe
    result is written when its status is OPEN or show_only_open is off, and
    the task then finishes. -/
def tcpTaskEvents (cfg : Config) (port : Nat) (env : TcpEnv) : List Event :=
  match scan_tcp env with
  | some (st, banner) =>
    if st == "OPEN" || !cfg.show_only_open then
      [Event.write Proto.tcp port st banner, Event.complete Proto.tcp port]
    else [Event.complete Proto.tcp port]
  | none => [Event.complete Proto.tcp port]

/-- Events produced by one spawned UDP task (source lines 110-121). -/
def udpTaskEvents (cfg : Config) (host : List Char) (port : Nat) (env : UdpEnv) :
    List Event :=
  match scan_udp env host port with
  | some st =>
    if st == "OPEN" || !cfg.show_only_open then
      [Event.write Proto.udp port st [], Event.complete Proto.udp port]
    else [Event.complete Proto.udp port]
  | none => [Event.complete Proto.udp port]

/-- Small-step transitions of run_with_settings.  The TCP loop (source lines
    76-101) acquires a permit and spawns a task for each port in ascending
    order; the UDP loop (lines 103-124) does the same and is reached as soon
    as the TCP loop has finished spawning, because the join over all task
    handles only happens afterwards (lines 126-128).  A running task may
    finish at any time, emitting its write and completion events and
    returning its permit.  The completion steps choose the network
    environment of the finished probe, which is the scheduler's and the
    network's nondeterminism. -/
inductive Step (cfg : Config) (host : List Char) : OrchState → OrchState → Prop
  | dispatchTcp (s : OrchState) (hport : s.tcpNext ≤ 65535) (hperm : 0 < s.permits) :
      Step cfg host s
        { tcpNext := s.tcpNext + 1, udpNext := s.udpNext, permits := s.permits - 1,
          running := (Proto.tcp, s.tcpNext) :: s.running,
          trace := s.trace ++ [Event.dispatch Proto.tcp s.tcpNext] }
  | dispatchUdp (s : OrchState) (htcp : 65535 < s.tcpNext)
      (hudp : cfg.scan_udp_enabled = true) (hport : s.udpNext ≤ 65535)
      (hperm : 0 < s.permits) :
      Step cfg host s
        { tcpNext := s.tcpNext, udpNext := s.udpNext + 1, permits := s.permits - 1,
          running := (Proto.udp, s.udpNext) :: s.running,
          trace := s.trace ++ [Event.dispatch Proto.udp s.udpNext] }
  | completeTcp (s : OrchState) (port : Nat) (env : TcpEnv) (hwf : tcpEnvWF env = true)
      (hmem : (Proto.tcp, port) ∈ s.running) :
      Step cfg host s
        { tcpNext := s.tcpNext, udpNext := s.udpNext, permits := s.permits + 1,
          running := s.running.erase (Proto.tcp, port),
          trace := s.trace ++ tcpTaskEvents cfg port env }
  | completeUdp (s : OrchState) (port : Nat) (env : UdpEnv)
      (hmem : (Proto.udp, port) ∈ s.running) :
      Step cfg host s
        { tcpNext := s.tcpNext, udpNext := s.udpNext, permits := s.permits + 1,
          running := s.running.erase (Proto.udp, port),
          trace := s.trace ++ udpTaskEvents cfg host port env }

/-- States a scan run can reach from its initial state. -/
def Reachable (cfg : Config) (host : List Char) (s : OrchState) : Prop :=
  Relation.ReflTransGen (Step cfg host) (initState cfg) s

/-- The state update of one TCP dispatch step, as a function, for building
    concrete executions. -/
def dispatchTcpStep (s : OrchState) : OrchState :=
  { tcpNext := s.tcpNext + 1, udpNext := s.udpNext, permits := s.permits - 1,
    running := (Proto.tcp, s.tcpNext) :: s.running,
    trace := s.trace ++ [Event.dispatch Proto.tcp s.tcpNext] }

/-- Iterated TCP dispatch. -/
def iterDispatchTcp : Nat → OrchState → OrchState
  | 0, s => s
  | n + 1, s => iterDispatchTcp n (dispatchTcpStep s)

/-- Configuration used in the phase-barrier counterexample: UDP enabled and a
    permit budget large enough that no TCP task needs to finish before the
    dispatch loops run dry. -/
def c1Cfg : Config :=
  { concurrency := 65536, timeout_secs := 1, show_only_open := false,
    verbose := false, scan_udp_enabled := true }

/-- Host used in the phase-barrier counterexample. -/
def c1Host : List Char :=
  "[::1]".toList

/-- State after the TCP loop has dispatched all 65535 ports. -/
def c1Mid : OrchState :=
  iterDispatchTcp 65535 (initState c1Cfg)

/-- State after the first UDP dispatch, while every TCP task is still
    running. -/
def c1Final : OrchState :=
  { tcpNext := c1Mid.tcpNext, udpNext := c1Mid.udpNext + 1,
    permits := c1Mid.permits - 1,
    running := (Proto.udp, c1Mid.udpNext) :: c1Mid.running,
    trace := c1Mid.trace ++ [Event.dispatch Proto.udp c1Mid.udpNext] }

/-- Configuration for the unresolvable-target counterexample. -/
def c2Cfg : Config :=
  { concurrency := 2, timeout_secs := 1, show_only_open := false,
    verbose := false, scan_udp_enabled := false }

/-- An unresolvable target name (reserved invalid top-level domain). -/
def c2Target : List Char :=
  "unresolvable.invalid".toList

/-- State after dispatching TCP port 1 for the unresolvable target. -/
def c2S1 : OrchState :=
  dispatchTcpStep (initState c2Cfg)

/-- TCP environment of a probe against an unresolvable host: the connect
    future fails, which the timeout wrapper reports as an inner error. -/
def c2Env : TcpEnv :=
  { connect := ConnectOutcome.failed }

/-- State after that probe finished: its CLOSED result has been written. -/
def c2S2 : OrchState :=
  { tcpNext := c2S1.tcpNext, udpNext := c2S1.udpNext, permits := c2S1.permits + 1,
    running := c2S1.running.erase (Proto.tcp, 1),
    trace := c2S1.trace ++ tcpTaskEvents c2Cfg 1 c2Env }

/-- Configuration with show_only_open on, for the filtering witness. -/
def c7Cfg : Config :=
  { concurrency := 1, timeout_secs := 1, show_only_open := true,
    verbose := false, scan_udp_enabled := false }

/-- Host for the filtering witness. -/
def c7Host : List Char :=
  "198.51.100.7".toList

/-- State after dispatching TCP port 1 under the filtering configuration. -/
def c7S1 : OrchState :=
  dispatchTcpStep (initState c7Cfg)

/-- Environment of an open port whose banner read times out. -/
def c7Env : TcpEnv :=
  { connect := ConnectOutcome.connected (ReadableOutcome.ready none) }

/-- State after that probe finished: its OPEN result has been written. -/
def c7S2 : OrchState :=
  { tcpNext := c7S1.tcpNext, udpNext := c7S1.udpNext, permits := c7S1.permits + 1,
    running := c7S1.running.erase (Proto.tcp, 1),
    trace := c7S1.trace ++ tcpTaskEvents c7Cfg 1 c7Env }

/-- UDP environment in which the send fails but a datagram still arrives on
    the bound local socket before the timeout. -/
def c6Env : UdpEnv :=
  { resolve := fun _ => some { addr := 0 }, bindOk := true, sendOk := false,
    recv := RecvOutcome.received 1 }

/-- UDP environment of a silently dropping port: everything succeeds but no
    datagram ever arrives. -/
def c6SilentEnv : UdpEnv :=
  { resolve := fun _ => some { addr := 0 }, bindOk := true, sendOk := true,
    recv := RecvOutcome.timedOut }

/-- TCP environment for the totality witness: an open port answering with
    the two bytes of "Hi". -/
def c5Env : TcpEnv :=
  { connect := ConnectOutcome.connected (ReadableOutcome.ready (some [72, 105])) }

/-- UDP environment for the deferred-resolution theorem: resolution fails. -/
def c2UdpEnv : UdpEnv :=
  { resolve := fun _ => none, bindOk := true, sendOk := true,
    recv := RecvOutcome.timedOut }

/-- Phase-ordering split of a trace: a first part free of UDP dispatch events
    followed by a second part free of TCP dispatch events, the second part
    being empty while the TCP dispatch loop is still active. -/
def phaseSplit (s : OrchState) : Prop :=
  ∃ t1 t2, s.trace = t1 ++ t2 ∧ (∀ q, Event.dispatch Proto.udp q ∉ t1) ∧
    (∀ q, Event.dispatch Proto.tcp q ∉ t2) ∧ (s.tcpNext ≤ 65535 → t2 = [])

/-! Helper lemmas about the string primitives. -/

theorem mem_dropLeading {c a : Char} : ∀ {l : List Char}, a ∈ dropLeading c l → a ∈ l := by
  intro l h
  induction l with
  | nil => simp [dropLeading] at h
  | cons x xs ih =>
    by_cases hx : x = c
    · simp only [dropLeading, if_pos hx] at h
      exact List.mem_cons_of_mem x (ih h)
    · simpa [dropLeading, if_neg hx] using h

theorem mem_dropWs {a : Char} : ∀ {l : List Char}, a ∈ dropWs l → a ∈ l := by
  intro l h
  induction l with
  | nil => simp [dropWs] at h
  | cons x xs ih =>
    by_cases hx : isRustWhitespace x
    · simp only [dropWs, if_pos hx] at h
      exact List.mem_cons_of_mem x (ih h)
    · simpa [dropWs, if_neg hx] using h

theorem dropWs_eq_self : ∀ {l : List Char},
    (∀ y ys, l = y :: ys → isRustWhitespace y = false) → dropWs l = l := by
  intro l h
  cases l with
  | nil => rfl
  | cons x xs => simp [dropWs, h x xs rfl]

theorem dropLeading_eq_self {c : Char} : ∀ {l : List Char},
    (∀ y ys, l = y :: ys → y ≠ c) → dropLeading c l = l := by
  intro l h
  cases l with
  | nil => rfl
  | cons x xs => simp [dropLeading, h x xs rfl]

theorem dropLeading_head {c : Char} : ∀ {l : List Char} {y : Char} {ys : List Char},
    dropLeading c l = y :: ys → y ≠ c := by
  intro l
  induction l with
  | nil => intro y ys h; simp [dropLeading] at h
  | cons x xs ih =>
    intro y ys h
    by_cases hx : x = c
    · exact ih (by simpa [dropLeading, if_pos hx] using h)
    · simp only [dropLeading, if_neg hx, List.cons.injEq] at h
      exact h.1 ▸ hx

theorem dropLeading_suffix (c : Char) : ∀ l : List Char,
    ∃ t, t ++ dropLeading c l = l := by
  intro l
  induction l with
  | nil => exact ⟨[], rfl⟩
  | cons x xs ih =>
    by_cases hx : x = c
    · obtain ⟨t, ht⟩ := ih
      exact ⟨x :: t, by simp [dropLeading, if_pos hx, ht]⟩
    · exact ⟨[], by simp [dropLeading, if_neg hx]⟩

theorem mem_dropTrailing {c a : Char} {l : List Char} (h : a ∈ dropTrailing c l) : a ∈ l := by
  have h' : a ∈ dropLeading c l.reverse := by
    simpa [dropTrailing, List.mem_reverse] using h
  simpa [List.mem_reverse] using mem_dropLeading h'

theorem mem_trim {a : Char} {l : List Char} (h : a ∈ trim l) : a ∈ l := by
  have h1 : a ∈ dropWs (dropWs l).reverse := by
    simpa [trim, trimEndWs, List.mem_reverse] using h
  have h2 := mem_dropWs h1
  rw [List.mem_reverse] at h2
  exact mem_dropWs h2

theorem mem_stripCore {a : Char} {l : List Char} (h : a ∈ stripCore l) : a ∈ l := by
  have h1 := mem_trim h
  have h2 := mem_dropTrailing h1
  have h3 := mem_dropLeading h2
  exact mem_trim h3

theorem trim_eq_self {l : List Char} (h : ∀ a ∈ l, isRustWhitespace a = false) :
    trim l = l := by
  have h1 : dropWs l = l :=
    dropWs_eq_self (fun y ys hy => h y (hy ▸ List.mem_cons_self y ys))
  have h2 : dropWs l.reverse = l.reverse :=
    dropWs_eq_self (fun y ys hy => by
      have : y ∈ l.reverse := hy ▸ List.mem_cons_self y ys
      exact h y (List.mem_reverse.mp this))
  simp [trim, trimEndWs, h1, h2]

theorem dropTrailing_prefixed (c : Char) (l : List Char) :
    ∃ t, dropTrailing c l ++ t = l := by
  obtain ⟨t, ht⟩ := dropLeading_suffix c l.reverse
  refine ⟨t.reverse, ?_⟩
  have := congrArg List.reverse ht
  simpa [dropTrailing, List.reverse_append] using this

theorem dropTrailing_reverse (c : Char) (l : List Char) :
    (dropTrailing c l).reverse = dropLeading c l.reverse := by
  simp [dropTrailing]

/-- Core facts about the stripped string of normalize_target: it is
    whitespace-free when the input is, never starts with an opening bracket,
    and never ends with a closing bracket. -/
theorem stripCore_props {l : List Char} (hws : ∀ a ∈ l, isRustWhitespace a = false) :
    (∀ a ∈ stripCore l, isRustWhitespace a = false) ∧
    (∀ y ys, stripCore l = y :: ys → y ≠ '[') ∧
    (∀ y ys, (stripCore l).reverse = y :: ys → y ≠ ']') := by
  have htrim : trim l = l := trim_eq_self hws
  set m := dropLeading '[' l with hm
  have hwsm : ∀ a ∈ m, isRustWhitespace a = false := fun a ha => hws a (mem_dropLeading ha)
  set u := dropTrailing ']' m with hu
  have hwsu : ∀ a ∈ u, isRustWhitespace a = false := fun a ha => hwsm a (mem_dropTrailing ha)
  have hcore : stripCore l = u := by
    rw [stripCore, htrim, ← hm, ← hu, trim_eq_self hwsu]
  refine ⟨?_, ?_, ?_⟩
  · intro a ha; exact hwsu a (hcore ▸ ha)
  · intro y ys hy
    rw [hcore] at hy
    obtain ⟨t, ht⟩ := dropTrailing_prefixed ']' m
    have hmcons : m = y :: (ys ++ t) := by rw [← ht, ← hu, hy]; simp
    exact @dropLeading_head '[' l y (ys ++ t) (hm ▸ hmcons)
  · intro y ys hy
    rw [hcore, dropTrailing_reverse] at hy
    exact dropLeading_head hy

/-- Stripping is the identity on a whitespace-free string that does not start
    with an opening bracket and does not end with a closing bracket. -/
theorem stripCore_eq_self {s : List Char}
    (hws : ∀ a ∈ s, isRustWhitespace a = false)
    (hhead : ∀ y ys, s = y :: ys → y ≠ '[')
    (hlast : ∀ y ys, s.reverse = y :: ys → y ≠ ']') :
    stripCore s = s := by
  have h1 : dropLeading '[' s = s := dropLeading_eq_self hhead
  have h2 : dropTrailing ']' s = s := by
    have : dropLeading ']' s.reverse = s.reverse := dropLeading_eq_self hlast
    simp [dropTrailing, this]
  rw [stripCore, trim_eq_self hws, h1, h2, trim_eq_self hws]

/-- Stripping undoes exactly the one bracket pair added around a non-empty,
    whitespace-free string that does not itself start with an opening bracket
    or end with a closing bracket. -/
theorem stripCore_bracketed {s : List Char} (hne : s ≠ [])
    (hws : ∀ a ∈ s, isRustWhitespace a = false)
    (hhead : ∀ y ys, s = y :: ys → y ≠ '[')
    (hlast : ∀ y ys, s.reverse = y :: ys → y ≠ ']') :
    stripCore ('[' :: (s ++ [']'])) = s := by
  obtain ⟨y, ys, hy⟩ := List.exists_cons_of_ne_nil hne
  have hwsr : ∀ a ∈ ('[' :: (s ++ [']'])), isRustWhitespace a = false := by
    intro a ha
    rcases List.mem_cons.mp ha with h | h
    · rw [h]; decide
    · rcases List.mem_append.mp h with h2 | h2
      · exact hws a h2
      · have h3 := List.mem_singleton.mp h2
        rw [h3]; decide
  have h1 : dropLeading '[' ('[' :: (s ++ [']'])) = s ++ [']'] := by
    have : dropLeading '[' (s ++ [']']) = s ++ [']'] := by
      refine dropLeading_eq_self ?_
      intro z zs hz
      have : z = y := by
        rw [hy] at hz
        simpa using congrArg (fun l => l.headI) hz.symm
      rw [this]
      exact hhead y ys hy
    simp [dropLeading, this]
  have h2 : dropTrailing ']' (s ++ [']']) = s := by
    have hrev : (s ++ [']']).reverse = ']' :: s.reverse := by simp
    have hs : dropLeading ']' s.reverse = s.reverse := dropLeading_eq_self hlast
    simp [dropTrailing, hrev, dropLeading, hs]
  rw [stripCore, trim_eq_self hwsr, h1, h2, trim_eq_self hws]

/-- C4 supporting fact: a value produced by normalizeTarget from a
    whitespace-free input normalizes to itself. -/
theorem normalizeTarget_fixed {l : List Char}
    (h : ∀ a ∈ l, isRustWhitespace a = false) :
    normalizeTarget (normalizeTarget l) = normalizeTarget l := by
  obtain ⟨hws, hhead, hlast⟩ := stripCore_props h
  by_cases hcond : (containsChar ':' (stripCore l) && !containsChar '.' (stripCore l)) = true
  · have hres : normalizeTarget l = '[' :: (stripCore l ++ [']']) := by
      simp only [normalizeTarget, hcond, if_true]
    have hne : stripCore l ≠ [] := by
      intro hnil
      rw [hnil] at hcond
      simp [containsChar] at hcond
    rw [hres]
    have hstrip := stripCore_bracketed hne hws hhead hlast
    simp only [normalizeTarget, hstrip, hcond, if_true]
  · have hres : normalizeTarget l = stripCore l := by
      simp only [normalizeTarget, hcond, if_false]
      simp only [Bool.not_eq_true] at hcond
      simp [hcond]
    rw [hres]
    have hstrip := stripCore_eq_self hws hhead hlast
    simp only [normalizeTarget, hstrip]
    simp only [Bool.not_eq_true] at hcond
    simp [hcond]

/-- C4 (corrected, amended part): address normalization is idempotent on
    every input that contains no whitespace character; the counterexample
    below shows that interior whitespace next to a stripped bracket breaks
    idempotence in the source. -/
theorem normalize_idempotent_on_whitespace_free (l : List Char)
    (h : ∀ a ∈ l, isRustWhitespace a = false) :
    normalizeTarget (normalizeTarget l) = normalizeTarget l :=
  normalizeTarget_fixed h

/-- Witness for the amended C4 theorem at the doubly bracketed IPv6 loopback
    literal. -/
theorem normalize_idempotent_on_whitespace_free_witness :
    (∀ a ∈ ("[[::1]]".toList), isRustWhitespace a = false) ∧
    normalizeTarget (normalizeTarget ("[[::1]]".toList)) =
      normalizeTarget ("[[::1]]".toList) :=
  ⟨by decide, normalize_idempotent_on_whitespace_free _ (by decide)⟩

/-- C4 (counterexample): the claim that normalize is idempotent for every
    input fails on the input consisting of an opening bracket, a space, and
    an unterminated IPv6 literal: one application yields a doubly bracketed
    string, a second application strips it differently. -/
theorem normalize_idempotence_cex :
    normalizeTarget (normalizeTarget ("[ [::1".toList)) ≠
      normalizeTarget ("[ [::1".toList) := by
  decide

theorem dropLeading_eq_dropWhile (c : Char) : ∀ l : List Char,
    dropLeading c l = l.dropWhile (fun x => x == c) := by
  intro l
  induction l with
  | nil => rfl
  | cons x xs ih =>
    by_cases hx : x = c
    · simp [dropLeading, List.dropWhile, hx, ih]
    · have hb : (x == c) = false := by simp [hx]
      simp [dropLeading, List.dropWhile, hx, hb]

theorem dropWs_eq_dropWhile : ∀ l : List Char,
    dropWs l = l.dropWhile isRustWhitespace := by
  intro l
  induction l with
  | nil => rfl
  | cons x xs ih =>
    by_cases hx : isRustWhitespace x
    · simp [dropWs, List.dropWhile, hx, ih]
    · simp [dropWs, List.dropWhile, hx]

/-- C3 (counterexample): the claimed normalizer, transcribed from the claim's
    own words, disagrees with the source on a dotted host-and-port string:
    the stripped string contains a colon, yet normalize_target returns it
    unbracketed because the source additionally requires the absence of a
    dot.  The claimed version yields the string wrapped in brackets. -/
theorem normalize_colon_wrap_cex :
    normalizeTarget ("1.2.3.4:80".toList) ≠ claimedNormalize ("1.2.3.4:80".toList) ∧
    normalizeTarget ("1.2.3.4:80".toList) = "1.2.3.4:80".toList ∧
    containsChar ':' ("1.2.3.4:80".toList) = true := by
  refine ⟨by decide, by decide, by decide⟩

/-- C3 (corrected, amended part): the normalizer trims whitespace, strips all
    leading opening brackets and all trailing closing brackets, trims again,
    and wraps the result in exactly one bracket pair precisely when it
    contains a colon and no dot, returning it unbracketed otherwise; in
    particular normalizing the doubly bracketed IPv6 loopback literal yields
    the singly bracketed one. -/
theorem normalize_target_amended_characterization :
    (∀ l : List Char, normalizeTarget l = amendedSpecNormalize l) ∧
    normalizeTarget ("[[::1]]".toList) = "[::1]".toList := by
  constructor
  · intro l
    simp only [normalizeTarget, amendedSpecNormalize, stripCore, trim, trimEndWs,
      dropTrailing, stripEndWhile, dropLeading_eq_dropWhile, dropWs_eq_dropWhile,
      containsChar]
  · decide

/-- C10 (confirmed): normalize_target is total and accepts everything; the
    source returns Ok in both of its branches, performing neither validation
    nor name resolution, so no input string is ever rejected at
    normalization time. -/
theorem normalize_target_total :
    ∀ l : List Char, ∃ v, normalize_target l = Except.ok v :=
  fun l => ⟨normalizeTarget l, rfl⟩

/-- C5 (confirmed): every TCP probe produces exactly one result and never
    propagates an error: a connect timeout yields TIMEOUT, a failed connect
    yields CLOSED, and a successful connect yields OPEN together with a
    banner lossily decoded from at most 1024 read bytes; when the readable
    wait times out or errors, or the read errors or returns no data, the
    banner is empty and the status stays OPEN. -/
theorem scan_tcp_total_and_classified (env : TcpEnv) (hwf : tcpEnvWF env = true) :
    (∃ st b, scan_tcp env = some (st, b)) ∧
    (env.connect = ConnectOutcome.timedOut → scan_tcp env = some ("TIMEOUT", [])) ∧
    (env.connect = ConnectOutcome.failed → scan_tcp env = some ("CLOSED", [])) ∧
    (∀ r, env.connect = ConnectOutcome.connected r →
      ∃ bs, bs.length ≤ 1024 ∧ scan_tcp env = some ("OPEN", utf8Lossy bs)) ∧
    (∀ r, env.connect = ConnectOutcome.connected r →
      (∀ bs, r ≠ ReadableOutcome.ready (some bs)) → scan_tcp env = some ("OPEN", [])) := by
  obtain ⟨co⟩ := env
  refine ⟨?_, ?_, ?_, ?_, ?_⟩
  · cases co with
    | timedOut => exact ⟨"TIMEOUT", [], rfl⟩
    | failed => exact ⟨"CLOSED", [], rfl⟩
    | connected r =>
      cases r with
      | timedOut => exact ⟨"OPEN", [], rfl⟩
      | errored => exact ⟨"OPEN", [], rfl⟩
      | ready o =>
        cases o with
        | none => exact ⟨"OPEN", [], rfl⟩
        | some bs =>
          by_cases hb : bs.length > 0
          · exact ⟨"OPEN", utf8Lossy bs, by simp [scan_tcp, hb]⟩
          · exact ⟨"OPEN", [], by simp [scan_tcp, hb]⟩
  · intro h; rw [show co = ConnectOutcome.timedOut from h]; rfl
  · intro h; rw [show co = ConnectOutcome.failed from h]; rfl
  · intro r h
    have hco : co = ConnectOutcome.connected r := h
    subst hco
    cases r with
    | timedOut => exact ⟨[], by simp, rfl⟩
    | errored => exact ⟨[], by simp, rfl⟩
    | ready o =>
      cases o with
      | none => exact ⟨[], by simp, rfl⟩
      | some bs =>
        refine ⟨bs, ?_, ?_⟩
        · simp only [tcpEnvWF, Bool.and_eq_true, decide_eq_true_eq] at hwf
          exact hwf.1
        · by_cases hb : bs.length > 0
          · simp [scan_tcp, hb]
          · have hnil : bs = [] := by
              simpa using List.eq_nil_of_length_eq_zero (by omega)
            subst hnil
            simp [scan_tcp, utf8Lossy, utf8LossyGo]
  · intro r h hnot
    have hco : co = ConnectOutcome.connected r := h
    subst hco
    cases r with
    | timedOut => rfl
    | errored => rfl
    | ready o =>
      cases o with
      | none => rfl
      | some bs => exact absurd rfl (hnot bs)

/-- Witness for the TCP totality theorem at an open port answering with two
    bytes. -/
theorem scan_tcp_total_and_classified_witness :
    tcpEnvWF c5Env = true ∧
    ((∃ st b, scan_tcp c5Env = some (st, b)) ∧
     (c5Env.connect = ConnectOutcome.timedOut → scan_tcp c5Env = some ("TIMEOUT", [])) ∧
     (c5Env.connect = ConnectOutcome.failed → scan_tcp c5Env = some ("CLOSED", [])) ∧
     (∀ r, c5Env.connect = ConnectOutcome.connected r →
       ∃ bs, bs.length ≤ 1024 ∧ scan_tcp c5Env = some ("OPEN", utf8Lossy bs)) ∧
     (∀ r, c5Env.connect = ConnectOutcome.connected r →
       (∀ bs, r ≠ ReadableOutcome.ready (some bs)) →
       scan_tcp c5Env = some ("OPEN", []))) :=
  ⟨by decide, scan_tcp_total_and_classified c5Env (by decide)⟩

/-- C6 (corrected, amended part): a UDP probe produces a result exactly when
    resolution succeeded, the local bind succeeded, and a datagram arrived
    before the timeout, and that result is always OPEN; on a receive timeout
    or error, a bind failure, or a resolution failure it produces no result.
    A send failure, however, is ignored by the source, so it does not by
    itself prevent a result. -/
theorem scan_udp_open_iff (env : UdpEnv) (ip : List Char) (port : Nat) :
    (scan_udp env ip port = none ∨ scan_udp env ip port = some ("OPEN")) ∧
    (scan_udp env ip port = some ("OPEN") ↔
      ((normalize_addr env.resolve (ip ++ ':' :: natDigits port)).isOk = true ∧
       env.bindOk = true ∧ ∃ n, env.recv = RecvOutcome.received n)) := by
  simp only [scan_udp]
  cases hres : normalize_addr env.resolve (ip ++ ':' :: natDigits port) with
  | error e => simp [Except.isOk, Except.toBool]
  | ok a =>
    cases hb : env.bindOk with
    | false => simp [Except.isOk, Except.toBool]
    | true =>
      cases hr : env.recv with
      | timedOut => simp [Except.isOk, Except.toBool, hr]
      | errored => simp [Except.isOk, Except.toBool, hr]
      | received n => simp [Except.isOk, Except.toBool, hr]

/-- C6 (counterexample): the claim that a send failure yields no result is
    false: the source discards the send result, so a probe whose send fails
    but whose socket still receives a datagram reports OPEN. -/
theorem scan_udp_send_failure_cex :
    c6Env.sendOk = false ∧ scan_udp c6Env ("198.51.100.7".toList) 53 = some ("OPEN") :=
  ⟨rfl, rfl⟩

/-- C2 (corrected, amended part): nothing is resolved up front, so an
    unresolvable target cannot abort the scan: the setup, whose only
    target-dependent step is normalize_target, succeeds on every input, a
    TCP probe whose connect fails is recorded as CLOSED, and a UDP probe
    whose resolution fails produces no result. -/
theorem unresolvable_target_no_abort (target : List Char) (envT : TcpEnv)
    (hc : envT.connect = ConnectOutcome.failed) (envU : UdpEnv)
    (hres : ∀ x, envU.resolve x = none) (ip : List Char) (port : Nat) :
    (setup true target).isOk = true ∧
    scan_tcp envT = some ("CLOSED", []) ∧
    scan_udp envU ip port = none := by
  refine ⟨?_, ?_, ?_⟩
  · simp [setup, normalize_target, Except.isOk, Except.toBool]
  · obtain ⟨co⟩ := envT
    rw [show co = ConnectOutcome.failed from hc]
    rfl
  · simp [scan_udp, normalize_addr, hres]

/-- Witness for the deferred-resolution theorem at a concrete unresolvable
    target. -/
theorem unresolvable_target_no_abort_witness :
    (setup true c2Target).isOk = true ∧
    scan_tcp c2Env = some ("CLOSED", []) ∧
    scan_udp c2UdpEnv c2Target 80 = none :=
  unresolvable_target_no_abort c2Target c2Env rfl c2UdpEnv (fun _ => rfl) c2Target 80

theorem natDigitsGo_mem : ∀ (fuel n : Nat) (acc : List Char) (c : Char),
    c ∈ natDigitsGo fuel n acc → c ∈ acc ∨ ∃ d, d < 10 ∧ c = digitChar d := by
  intro fuel
  induction fuel with
  | zero => intro n acc c h; exact Or.inl h
  | succ fuel ih =>
    intro n acc c h
    by_cases hn : n < 10
    · simp only [natDigitsGo, if_pos hn] at h
      rcases List.mem_cons.mp h with h1 | h1
      · exact Or.inr ⟨n, hn, h1⟩
      · exact Or.inl h1
    · simp only [natDigitsGo, if_neg hn] at h
      rcases ih (n / 10) (digitChar (n % 10) :: acc) c h with h1 | h1
      · rcases List.mem_cons.mp h1 with h2 | h2
        · exact Or.inr ⟨n % 10, Nat.mod_lt n (by omega), h2⟩
        · exact Or.inl h2
      · exact Or.inr h1

theorem natDigits_ne_newline {n : Nat} {c : Char} (h : c ∈ natDigits n) : c ≠ '\n' := by
  rcases natDigitsGo_mem (n + 1) n [] c h with h1 | h1
  · simp at h1
  · obtain ⟨d, hd, hc⟩ := h1
    subst hc
    have hall : ∀ d : Nat, d < 10 → digitChar d ≠ '\n' := by decide
    exact hall d hd

theorem count_newline_zero {l : List Char} (h : ∀ c ∈ l, c ≠ '\n') :
    l.count '\n' = 0 :=
  List.count_eq_zero.mpr (fun hmem => h '\n' hmem rfl)

/-- C8 (corrected, amended part): when the host and the banner contain no
    newline, every persisted record is exactly one line: it contains exactly
    one newline character, located at its end (the one appended by writeln),
    for each of the three TCP statuses and for a UDP OPEN record. -/
theorem record_single_line_when_banner_clean (host banner : List Char) (port : Nat)
    (status : String) (hhost : ∀ c ∈ host, c ≠ '\n') (hban : ∀ c ∈ banner, c ≠ '\n')
    (hst : status = "OPEN" ∨ status = "CLOSED" ∨ status = "TIMEOUT") :
    ((tcpRecord host port status banner).count '\n' = 1 ∧
     (tcpRecord host port status banner).getLast? = some '\n' ∧
     (udpRecord host port ("OPEN")).count '\n' = 1 ∧
     (udpRecord host port ("OPEN")).getLast? = some '\n') := by
  have hhostc : host.count '\n' = 0 := count_newline_zero hhost
  have hbanc : banner.count '\n' = 0 := count_newline_zero hban
  have hdig : (natDigits port).count '\n' = 0 :=
    count_newline_zero (fun c hc => natDigits_ne_newline hc)
  have hstc : List.count '\n' status.data = 0 := by
    rcases hst with h | h | h <;> (subst h; decide)
  have hstc' : List.count '\n' status.toList = 0 := hstc
  refine ⟨?_, ?_, ?_, ?_⟩
  · by_cases hb : banner.isEmpty <;>
      · simp only [tcpRecord, tcpLine, hb, if_true, if_false, Bool.false_eq_true,
          List.count_append, List.count_cons, hhostc, hbanc, hdig, hstc, hstc']
        decide
  · exact List.getLast?_concat _
  · simp only [udpRecord, List.count_append, List.count_cons, hhostc, hdig, hstc, hstc']
    decide
  · exact List.getLast?_concat _

/-- Witness for the single-line record theorem at a concrete host, port,
    status, and banner. -/
theorem record_single_line_when_banner_clean_witness :
    ((tcpRecord ("example.com".toList) 443 ("OPEN") ("SSH-2.0".toList)).count '\n' = 1 ∧
     (tcpRecord ("example.com".toList) 443 ("OPEN") ("SSH-2.0".toList)).getLast? =
       some '\n' ∧
     (udpRecord ("example.com".toList) 443 ("OPEN")).count '\n' = 1 ∧
     (udpRecord ("example.com".toList) 443 ("OPEN")).getLast? = some '\n') :=
  record_single_line_when_banner_clean ("example.com".toList) ("SSH-2.0".toList) 443
    ("OPEN") (by decide) (by decide) (Or.inl rfl)

/-- C8 (counterexample): the claim that no written record contains an
    interior newline for every possible banner content is false: the banner
    is written unsanitized, so a banner containing a newline produces a
    record with a newline before its final character. -/
theorem record_interior_newline_cex :
    '\n' ∈ (tcpRecord ("127.0.0.1".toList) 80 ("OPEN") ("a\nb".toList)).dropLast := by
  decide

/-! Lemmas about the events a finished task emits. -/

theorem tcpTaskEvents_shape {cfg : Config} {port : Nat} {env : TcpEnv} {e : Event}
    (h : e ∈ tcpTaskEvents cfg port env) :
    (∃ st b, e = Event.write Proto.tcp port st b) ∨ e = Event.complete Proto.tcp port := by
  unfold tcpTaskEvents at h
  cases hscan : scan_tcp env with
  | none => rw [hscan] at h; simp at h; exact Or.inr h
  | some pr =>
    obtain ⟨st, b⟩ := pr
    rw [hscan] at h
    by_cases hif : (st == "OPEN" || !cfg.show_only_open) = true
    · simp only [hif, if_true] at h
      rcases List.mem_cons.mp h with h1 | h1
      · exact Or.inl ⟨st, b, h1⟩
      · simp at h1; exact Or.inr h1
    · simp only [Bool.not_eq_true] at hif
      simp only [hif, Bool.false_eq_true, if_false] at h
      simp at h
      exact Or.inr h

theorem udpTaskEvents_shape {cfg : Config} {host : List Char} {port : Nat} {env : UdpEnv}
    {e : Event} (h : e ∈ udpTaskEvents cfg host port env) :
    (∃ st, e = Event.write Proto.udp port st []) ∨ e = Event.complete Proto.udp port := by
  unfold udpTaskEvents at h
  cases hscan : scan_udp env host port with
  | none => rw [hscan] at h; simp at h; exact Or.inr h
  | some st =>
    rw [hscan] at h
    by_cases hif : (st == "OPEN" || !cfg.show_only_open) = true
    · simp only [hif, if_true] at h
      rcases List.mem_cons.mp h with h1 | h1
      · exact Or.inl ⟨st, h1⟩
      · simp at h1; exact Or.inr h1
    · simp only [Bool.not_eq_true] at hif
      simp only [hif, Bool.false_eq_true, if_false] at h
      simp at h
      exact Or.inr h

theorem tcpTaskEvents_no_dispatch {cfg : Config} {port : Nat} {env : TcpEnv} {e : Event}
    (h : e ∈ tcpTaskEvents cfg port env) : ∀ p q, e ≠ Event.dispatch p q := by
  intro p q hne
  rcases tcpTaskEvents_shape h with ⟨st, b, h1⟩ | h1 <;> rw [hne] at h1 <;> simp at h1

theorem udpTaskEvents_no_dispatch {cfg : Config} {host : List Char} {port : Nat}
    {env : UdpEnv} {e : Event} (h : e ∈ udpTaskEvents cfg host port env) :
    ∀ p q, e ≠ Event.dispatch p q := by
  intro p q hne
  rcases udpTaskEvents_shape h with ⟨st, h1⟩ | h1 <;> rw [hne] at h1 <;> simp at h1

theorem tcpTaskEvents_write_open {cfg : Config} {port : Nat} {env : TcpEnv}
    {p : Proto} {q : Nat} {st : String} {b : List Char}
    (hshow : cfg.show_only_open = true)
    (h : Event.write p q st b ∈ tcpTaskEvents cfg port env) : st = "OPEN" := by
  unfold tcpTaskEvents at h
  cases hscan : scan_tcp env with
  | none => rw [hscan] at h; simp at h
  | some pr =>
    obtain ⟨st', b'⟩ := pr
    rw [hscan] at h
    by_cases hif : (st' == "OPEN" || !cfg.show_only_open) = true
    · simp only [hif, if_true] at h
      rcases List.mem_cons.mp h with h1 | h1
      · have hst : st = st' := by
          injection h1 with _ _ h3 _
        rw [hshow] at hif
        simp only [Bool.not_true, Bool.or_false] at hif
        exact hst ▸ eq_of_beq hif
      · simp at h1
    · simp only [Bool.not_eq_true] at hif
      simp only [hif, Bool.false_eq_true, if_false] at h
      simp at h

theorem udpTaskEvents_write_open {cfg : Config} {host : List Char} {port : Nat}
    {env : UdpEnv} {p : Proto} {q : Nat} {st : String} {b : List Char}
    (hshow : cfg.show_only_open = true)
    (h : Event.write p q st b ∈ udpTaskEvents cfg host port env) : st = "OPEN" := by
  unfold udpTaskEvents at h
  cases hscan : scan_udp env host port with
  | none => rw [hscan] at h; simp at h
  | some st' =>
    rw [hscan] at h
    by_cases hif : (st' == "OPEN" || !cfg.show_only_open) = true
    · simp only [hif, if_true] at h
      rcases List.mem_cons.mp h with h1 | h1
      · have hst : st = st' := by
          injection h1 with _ _ h3 _
        rw [hshow] at hif
        simp only [Bool.not_true, Bool.or_false] at hif
        exact hst ▸ eq_of_beq hif
      · simp at h1
    · simp only [Bool.not_eq_true] at hif
      simp only [hif, Bool.false_eq_true, if_false] at h
      simp at h

/-- Permit accounting invariant: the tasks in flight plus the free permits
    always add up to the configured concurrency. -/
theorem permits_invariant {cfg : Config} {host : List Char} {s : OrchState}
    (h : Reachable cfg host s) : s.running.length + s.permits = cfg.concurrency := by
  induction h with
  | refl => simp [initState]
  | tail _ hstep ih =>
    cases hstep with
    | dispatchTcp hport hperm => simp only [List.length_cons]; omega
    | dispatchUdp htcp hudp hport hperm => simp only [List.length_cons]; omega
    | completeTcp port env hwf hmem =>
      have hlen := List.length_erase_of_mem hmem
      have hpos := List.length_pos_of_mem hmem
      simp only [hlen]; omega
    | completeUdp port env hmem =>
      have hlen := List.length_erase_of_mem hmem
      have hpos := List.length_pos_of_mem hmem
      simp only [hlen]; omega

/-- C9 (confirmed): every probe task holds one semaphore permit for its whole
    lifetime, so at every reachable instant the permits held, which equal the
    probes in flight, never exceed the configured concurrency, across both
    the TCP and the UDP phase. -/
theorem running_le_concurrency {cfg : Config} {host : List Char} {s : OrchState}
    (h : Reachable cfg host s) :
    s.running.length + s.permits = cfg.concurrency ∧
    s.running.length ≤ cfg.concurrency := by
  have hinv := permits_invariant h
  exact ⟨hinv, by omega⟩

/-- Witness for the concurrency bound at the initial state of a two-permit
    configuration. -/
theorem running_le_concurrency_witness :
    (initState c2Cfg).running.length + (initState c2Cfg).permits = c2Cfg.concurrency ∧
    (initState c2Cfg).running.length ≤ c2Cfg.concurrency :=
  @running_le_concurrency c2Cfg c2Target (initState c2Cfg) Relation.ReflTransGen.refl

/-- C7 (confirmed): with show_only_open on, every record ever written during
    a scan, for any interleaving of probe completions, has status OPEN; the
    sink discards every non-OPEN result without writing it. -/
theorem show_only_open_writes_only_open {cfg : Config} {host : List Char} {s : OrchState}
    (hshow : cfg.show_only_open = true) (h : Reachable cfg host s) :
    ∀ p q st b, Event.write p q st b ∈ s.trace → st = "OPEN" := by
  induction h with
  | refl => intro p q st b hmem; simp [initState] at hmem
  | tail _ hstep ih =>
    cases hstep with
    | dispatchTcp hport hperm =>
      intro p q st b hmem
      rcases List.mem_append.mp hmem with h1 | h1
      · exact ih p q st b h1
      · simp at h1
    | dispatchUdp htcp hudp hport hperm =>
      intro p q st b hmem
      rcases List.mem_append.mp hmem with h1 | h1
      · exact ih p q st b h1
      · simp at h1
    | completeTcp port env hwf hmem0 =>
      intro p q st b hmem
      rcases List.mem_append.mp hmem with h1 | h1
      · exact ih p q st b h1
      · exact tcpTaskEvents_write_open hshow h1
    | completeUdp port env hmem0 =>
      intro p q st b hmem
      rcases List.mem_append.mp hmem with h1 | h1
      · exact ih p q st b h1
      · exact udpTaskEvents_write_open hshow h1

/-- One orchestrator step preserves the phase split of the trace. -/
theorem trace_phase_step {cfg : Config} {host : List Char} {s s' : OrchState}
    (hstep : Step cfg host s s') (ih : phaseSplit s) : phaseSplit s' := by
  obtain ⟨t1, t2, htr, hu1, ht2, hcond⟩ := ih
  cases hstep with
  | dispatchTcp hport hperm =>
    have ht2nil : t2 = [] := hcond hport
    subst ht2nil
    rw [List.append_nil] at htr
    refine ⟨t1 ++ [Event.dispatch Proto.tcp s.tcpNext], [], ?_, ?_, by simp, fun _ => rfl⟩
    · show s.trace ++ [Event.dispatch Proto.tcp s.tcpNext] = _
      rw [htr, List.append_nil]
    · intro q hmem
      rcases List.mem_append.mp hmem with h1 | h1
      · exact hu1 q h1
      · simp at h1
  | dispatchUdp htcp hudp hport hperm =>
    refine ⟨t1, t2 ++ [Event.dispatch Proto.udp s.udpNext], ?_, hu1, ?_, ?_⟩
    · show s.trace ++ [Event.dispatch Proto.udp s.udpNext] = _
      rw [htr, List.append_assoc]
    · intro q hmem
      rcases List.mem_append.mp hmem with h1 | h1
      · exact ht2 q h1
      · simp at h1
    · intro hle
      have hle' : s.tcpNext ≤ 65535 := hle
      omega
  | completeTcp port env hwf hmem =>
    by_cases hle : s.tcpNext ≤ 65535
    · have ht2nil : t2 = [] := hcond hle
      subst ht2nil
      rw [List.append_nil] at htr
      refine ⟨t1 ++ tcpTaskEvents cfg port env, [], ?_, ?_, by simp, fun _ => rfl⟩
      · show s.trace ++ tcpTaskEvents cfg port env = _
        rw [htr, List.append_nil]
      · intro q hmem2
        rcases List.mem_append.mp hmem2 with h1 | h1
        · exact hu1 q h1
        · exact tcpTaskEvents_no_dispatch h1 Proto.udp q rfl
    · refine ⟨t1, t2 ++ tcpTaskEvents cfg port env, ?_, hu1, ?_, ?_⟩
      · show s.trace ++ tcpTaskEvents cfg port env = _
        rw [htr, List.append_assoc]
      · intro q hmem2
        rcases List.mem_append.mp hmem2 with h1 | h1
        · exact ht2 q h1
        · exact tcpTaskEvents_no_dispatch h1 Proto.tcp q rfl
      · intro hle2
        exact absurd hle2 hle
  | completeUdp port env hmem =>
    by_cases hle : s.tcpNext ≤ 65535
    · have ht2nil : t2 = [] := hcond hle
      subst ht2nil
      rw [List.append_nil] at htr
      refine ⟨t1 ++ udpTaskEvents cfg host port env, [], ?_, ?_, by simp, fun _ => rfl⟩
      · show s.trace ++ udpTaskEvents cfg host port env = _
        rw [htr, List.append_nil]
      · intro q hmem2
        rcases List.mem_append.mp hmem2 with h1 | h1
        · exact hu1 q h1
        · exact udpTaskEvents_no_dispatch h1 Proto.udp q rfl
    · refine ⟨t1, t2 ++ udpTaskEvents cfg host port env, ?_, hu1, ?_, ?_⟩
      · show s.trace ++ udpTaskEvents cfg host port env = _
        rw [htr, List.append_assoc]
      · intro q hmem2
        rcases List.mem_append.mp hmem2 with h1 | h1
        · exact ht2 q h1
        · exact udpTaskEvents_no_dispatch h1 Proto.tcp q rfl
      · intro hle2
        exact absurd hle2 hle

/-- Phase-ordering invariant of a run: the trace splits into a part free of
    UDP dispatches followed by a part free of TCP dispatches, and while the
    TCP dispatch loop is still active the second part is empty. -/
theorem trace_phase_invariant {cfg : Config} {host : List Char} {s : OrchState}
    (h : Reachable cfg host s) : phaseSplit s := by
  induction h with
  | refl => exact ⟨[], [], by simp [initState], by simp, by simp, fun _ => rfl⟩
  | tail _ hstep ih => exact trace_phase_step hstep ih

/-- C1 (corrected, amended part): what the orchestrator does guarantee is a
    dispatch-order barrier: in every reachable trace, every UDP dispatch
    occurs after every TCP dispatch, because the UDP loop only starts after
    the TCP loop has finished spawning.  TCP probes may still be in flight
    at that point; only their dispatching, not their completion, precedes
    the UDP phase. -/
theorem udp_dispatch_after_all_tcp_dispatch {cfg : Config} {host : List Char}
    {s : OrchState} (h : Reachable cfg host s) :
    ∃ t1 t2, s.trace = t1 ++ t2 ∧ (∀ q, Event.dispatch Proto.udp q ∉ t1) ∧
      (∀ q, Event.dispatch Proto.tcp q ∉ t2) := by
  obtain ⟨t1, t2, htr, hu1, ht2, _⟩ := trace_phase_invariant h
  exact ⟨t1, t2, htr, hu1, ht2⟩

/-! Construction of a reachable state in which a UDP probe has been
    dispatched while no TCP probe has completed. -/

theorem dispatchTcpStep_tcpNext (s : OrchState) :
    (dispatchTcpStep s).tcpNext = s.tcpNext + 1 := rfl

theorem dispatchTcpStep_udpNext (s : OrchState) :
    (dispatchTcpStep s).udpNext = s.udpNext := rfl

theorem dispatchTcpStep_permits (s : OrchState) :
    (dispatchTcpStep s).permits = s.permits - 1 := rfl

theorem dispatchTcpStep_trace (s : OrchState) :
    (dispatchTcpStep s).trace = s.trace ++ [Event.dispatch Proto.tcp s.tcpNext] := rfl

theorem iterDispatchTcp_succ (n : Nat) (s : OrchState) :
    iterDispatchTcp (n + 1) s = iterDispatchTcp n (dispatchTcpStep s) := rfl

theorem iterDispatchTcp_fields : ∀ (n : Nat) (s : OrchState),
    (iterDispatchTcp n s).tcpNext = s.tcpNext + n ∧
    (iterDispatchTcp n s).udpNext = s.udpNext ∧
    (iterDispatchTcp n s).permits = s.permits - n := by
  intro n
  induction n with
  | zero => intro s; refine ⟨rfl, rfl, by simp [iterDispatchTcp]⟩
  | succ n ih =>
    intro s
    obtain ⟨h1, h2, h3⟩ := ih (dispatchTcpStep s)
    refine ⟨?_, ?_, ?_⟩
    · rw [iterDispatchTcp_succ, h1, dispatchTcpStep_tcpNext]; omega
    · rw [iterDispatchTcp_succ, h2, dispatchTcpStep_udpNext]
    · rw [iterDispatchTcp_succ, h3, dispatchTcpStep_permits]; omega

theorem iterDispatchTcp_trace_dispatch : ∀ (n : Nat) (s : OrchState),
    (∀ e ∈ s.trace, ∃ p q, e = Event.dispatch p q) →
    ∀ e ∈ (iterDispatchTcp n s).trace, ∃ p q, e = Event.dispatch p q := by
  intro n
  induction n with
  | zero => intro s hs; exact hs
  | succ n ih =>
    intro s hs
    rw [iterDispatchTcp_succ]
    refine ih (dispatchTcpStep s) ?_
    intro e he
    rw [dispatchTcpStep_trace] at he
    rcases List.mem_append.mp he with h1 | h1
    · exact hs e h1
    · simp only [List.mem_singleton] at h1
      exact ⟨Proto.tcp, s.tcpNext, h1⟩

theorem iterDispatchTcp_reachable (cfg : Config) (host : List Char) :
    ∀ (n : Nat) (s : OrchState), s.tcpNext + n ≤ 65536 → n ≤ s.permits →
    Relation.ReflTransGen (Step cfg host) s (iterDispatchTcp n s) := by
  intro n
  induction n with
  | zero => intro s h1 h2; exact Relation.ReflTransGen.refl
  | succ n ih =>
    intro s h1 h2
    have hstep : Step cfg host s (dispatchTcpStep s) :=
      Step.dispatchTcp s (by omega) (by omega)
    have hrest := ih (dispatchTcpStep s)
      (by rw [dispatchTcpStep_tcpNext]; omega)
      (by rw [dispatchTcpStep_permits]; omega)
    rw [iterDispatchTcp_succ]
    exact Relation.ReflTransGen.head hstep hrest

theorem c1Mid_reachable : Reachable c1Cfg c1Host c1Mid :=
  iterDispatchTcp_reachable c1Cfg c1Host 65535 (initState c1Cfg)
    (by show 1 + 65535 ≤ 65536; omega) (by show 65535 ≤ 65536; omega)

theorem c1Mid_tcpNext : c1Mid.tcpNext = 65536 := by
  have h := (iterDispatchTcp_fields 65535 (initState c1Cfg)).1
  exact h

theorem c1Mid_udpNext : c1Mid.udpNext = 1 := by
  have h := (iterDispatchTcp_fields 65535 (initState c1Cfg)).2.1
  exact h

theorem c1Mid_permits : c1Mid.permits = 1 := by
  have h := (iterDispatchTcp_fields 65535 (initState c1Cfg)).2.2
  exact h

theorem c1Final_reachable : Reachable c1Cfg c1Host c1Final := by
  have hstep : Step c1Cfg c1Host c1Mid c1Final :=
    Step.dispatchUdp c1Mid
      (by rw [c1Mid_tcpNext]; omega)
      rfl
      (by rw [c1Mid_udpNext]; omega)
      (by rw [c1Mid_permits]; omega)
  exact Relation.ReflTransGen.tail c1Mid_reachable hstep

theorem c1Final_trace :
    c1Final.trace = c1Mid.trace ++ [Event.dispatch Proto.udp c1Mid.udpNext] := rfl

/-- C1 (counterexample): the claim that the whole TCP phase completes before
    any UDP dispatch is false.  With UDP enabled and a permit budget of
    65536, the run that dispatches all TCP probes and then immediately
    dispatches UDP port 1 is reachable; in its trace a UDP dispatch is
    present while no TCP probe has completed and no result has been recorded
    at all (every trace event is a dispatch). -/
theorem udp_dispatch_before_tcp_completion_cex :
    Reachable c1Cfg c1Host c1Final ∧
    Event.dispatch Proto.udp 1 ∈ c1Final.trace ∧
    Event.complete Proto.tcp 1 ∉ c1Final.trace := by
  have hdisp : ∀ e ∈ c1Final.trace, ∃ p q, e = Event.dispatch p q := by
    intro e he
    rw [c1Final_trace] at he
    rcases List.mem_append.mp he with hm | hm
    · exact iterDispatchTcp_trace_dispatch 65535 (initState c1Cfg)
        (by intro e2 he2; simp [initState] at he2) e hm
    · simp only [List.mem_singleton] at hm
      exact ⟨Proto.udp, c1Mid.udpNext, hm⟩
  refine ⟨c1Final_reachable, ?_, ?_⟩
  · have hm : Event.dispatch Proto.udp c1Mid.udpNext ∈ c1Final.trace := by
      rw [c1Final_trace]
      exact List.mem_append_right _ (List.mem_singleton.mpr rfl)
    rwa [c1Mid_udpNext] at hm
  · intro hmem
    obtain ⟨p, q, hpq⟩ := hdisp _ hmem
    simp at hpq

/-- Witness for the dispatch-order barrier theorem at the state that has
    dispatched every TCP probe and one UDP probe. -/
theorem udp_dispatch_after_all_tcp_dispatch_witness :
    ∃ t1 t2, c1Final.trace = t1 ++ t2 ∧ (∀ q, Event.dispatch Proto.udp q ∉ t1) ∧
      (∀ q, Event.dispatch Proto.tcp q ∉ t2) :=
  udp_dispatch_after_all_tcp_dispatch c1Final_reachable

/-- C2 (counterexample): the claim that an unresolvable target aborts the
    scan before any probe with no partial results is false.  The only
    up-front fallible steps are normalize_target, which succeeds on every
    input including this reserved-invalid name, and the file creation; no
    resolution happens before probing.  The run that dispatches TCP port 1
    and completes it with the failed connect an unresolvable host produces
    is reachable, and its trace contains a written CLOSED record: the scan
    proceeded and produced partial results instead of aborting. -/
theorem unresolvable_target_scan_proceeds_cex :
    setup true c2Target = Except.ok c2Target ∧
    Reachable c2Cfg c2Target c2S2 ∧
    Event.write Proto.tcp 1 ("CLOSED") [] ∈ c2S2.trace := by
  refine ⟨rfl, ?_, by decide⟩
  have hstep1 : Step c2Cfg c2Target (initState c2Cfg) c2S1 :=
    Step.dispatchTcp (initState c2Cfg) (by decide) (by decide)
  have hstep2 : Step c2Cfg c2Target c2S1 c2S2 :=
    Step.completeTcp c2S1 1 c2Env (by decide) (by decide)
  exact Relation.ReflTransGen.tail (Relation.ReflTransGen.single hstep1) hstep2

theorem c7S2_reachable : Reachable c7Cfg c7Host c7S2 := by
  have hstep1 : Step c7Cfg c7Host (initState c7Cfg) c7S1 :=
    Step.dispatchTcp (initState c7Cfg) (by decide) (by decide)
  have hstep2 : Step c7Cfg c7Host c7S1 c7S2 :=
    Step.completeTcp c7S1 1 c7Env (by decide) (by decide)
  exact Relation.ReflTransGen.tail (Relation.ReflTransGen.single hstep1) hstep2

/-- Witness for the filtering theorem: under the show_only_open
    configuration, a run that wrote an OPEN record is reachable and the
    theorem applies to its write event. -/
theorem show_only_open_writes_only_open_witness :
    c7Cfg.show_only_open = true ∧ ("OPEN" : String) = "OPEN" :=
  ⟨rfl, show_only_open_writes_only_open rfl c7S2_reachable Proto.tcp 1 ("OPEN") []
    (by decide)⟩

end PortScanner
